import Mathlib

/-!
Verification of the MATSYA marine-data dashboard's API client and form
handlers (`src/services/matsyaAPI.ts`, `src/components/matsya/*.tsx`),
as a shallow embedding in Lean.

The embedding models:
* JavaScript's `JSON.stringify` / `JSON.parse` on JSON trees (numbers are
  modelled as integers; the parser covers the whitespace-free grammar that
  `JSON.stringify` emits, which is all the client ever round-trips);
* the uniform request wrapper `MatsyaAPIService.request` and its error
  envelope;
* header spreading, multipart form assembly (`ingestData`), query-parameter
  serialization (`searchMarineData` / `getOceanographicData`), and the
  WebSocket URL/message handling (`connectRealTimeStream`);
* the `DataIngestion` upload guards and status-polling loop, and the
  sequence normalization of `eDNAAnalysis` / coordinate assembly of
  `SpeciesIdentification`.
-/

set_option maxHeartbeats 1000000

namespace Matsya

/-! ## Characters and JavaScript lexical helpers -/

/-- Left brace character, kept as a named constant. -/
def lbrace : Char := Char.ofNat 123

/-- Right brace character, kept as a named constant. -/
def rbrace : Char := Char.ofNat 125

/-- The character class of JavaScript's `\s` regex escape and of
`String.prototype.trim` (ECMA-262 WhiteSpace plus LineTerminator). -/
def jsIsSpace (c : Char) : Bool :=
  c = ' ' || c = '\t' || c = '\n' || c = '\r' ||
  c = '\x0b' || c = '\x0c' || c = '\u00A0' || c = '\u1680' ||
  ('\u2000' ≤ c && c ≤ '\u200A') || c = '\u2028' || c = '\u2029' ||
  c = '\u202F' || c = '\u205F' || c = '\u3000' || c = '\uFEFF'

/-- `String.prototype.trim`: strip leading and trailing whitespace. -/
def jsTrim (s : String) : String :=
  ⟨((s.data.dropWhile jsIsSpace).reverse.dropWhile jsIsSpace).reverse⟩

/-- ASCII uppercasing of one character, the effect of
`String.prototype.toUpperCase` on basic latin text. -/
def asciiUpper (c : Char) : Char :=
  if 'a' ≤ c && c ≤ 'z' then Char.ofNat (c.toNat - 32) else c

/-! ## Decimal numerals (JavaScript integer `toString` and parsing) -/

/-- The decimal digit character for `n < 10`. -/
def digitChar (n : Nat) : Char :=
  match n with
  | 0 => '0' | 1 => '1' | 2 => '2' | 3 => '3' | 4 => '4'
  | 5 => '5' | 6 => '6' | 7 => '7' | 8 => '8' | _ => '9'

/-- Numeric value of a decimal digit character. -/
def charDigitVal (c : Char) : Nat := c.toNat - 48

/-- Fuelled most-significant-first decimal digits of a natural number.
The fuel only bounds recursion depth; `natChars` supplies enough. -/
def natCharsAux : Nat → Nat → List Char
  | 0, _ => []
  | fuel + 1, n =>
    if n < 10 then [digitChar n]
    else natCharsAux fuel (n / 10) ++ [digitChar (n % 10)]

/-- Decimal digits of a natural number, as JavaScript prints it. -/
def natChars (n : Nat) : List Char := natCharsAux (n + 1) n

/-- Decimal form of an integer, as JavaScript's number `toString`
prints an integral value. -/
def intChars : Int → List Char
  | .ofNat m => natChars m
  | .negSucc m => '-' :: natChars (m + 1)

/-- Consume a maximal run of decimal digits, folding them onto an
accumulator; returns the value and the unconsumed tail. -/
def takeDigits : List Char → Nat → Nat × List Char
  | [], acc => (acc, [])
  | c :: cs, acc =>
    if c.isDigit then takeDigits cs (acc * 10 + charDigitVal c)
    else (acc, c :: cs)

/-- Parse a JSON integer (optional minus sign, then digits) off the front
of the input, returning the unconsumed tail. -/
def parseNum : List Char → Option (Int × List Char)
  | [] => none
  | c :: cs =>
    if c = '-' then
      match cs with
      | [] => none
      | c1 :: cs1 =>
        if c1.isDigit then
          let p := takeDigits cs1 (charDigitVal c1)
          some (-(p.1 : Int), p.2)
        else none
    else if c.isDigit then
      let p := takeDigits cs (charDigitVal c)
      some ((p.1 : Int), p.2)
    else none

/-! ## JSON string escaping (`JSON.stringify`) and unescaping -/

/-- Lower-case hex digit for `n < 16`. -/
def hexDigitChar (n : Nat) : Char :=
  match n with
  | 0 => '0' | 1 => '1' | 2 => '2' | 3 => '3' | 4 => '4'
  | 5 => '5' | 6 => '6' | 7 => '7' | 8 => '8' | 9 => '9'
  | 10 => 'a' | 11 => 'b' | 12 => 'c' | 13 => 'd' | 14 => 'e' | _ => 'f'

/-- Numeric value of a hex digit character. -/
def hexVal (c : Char) : Option Nat :=
  if '0' ≤ c && c ≤ '9' then some (c.toNat - 48)
  else if 'a' ≤ c && c ≤ 'f' then some (c.toNat - 87)
  else if 'A' ≤ c && c ≤ 'F' then some (c.toNat - 55)
  else none

/-- How `JSON.stringify` escapes one character inside a string literal:
quote and backslash get a backslash escape, the common control characters
get their two-character escapes, remaining control characters become
`\u00XX`, and everything else is emitted verbatim. -/
def escapeChar (c : Char) : List Char :=
  if c = '"' then ['\\', '"']
  else if c = '\\' then ['\\', '\\']
  else if c = '\x08' then ['\\', 'b']
  else if c = '\x0c' then ['\\', 'f']
  else if c = '\n' then ['\\', 'n']
  else if c = '\r' then ['\\', 'r']
  else if c = '\t' then ['\\', 't']
  else if c.toNat < 32 then
    ['\\', 'u', '0', '0', hexDigitChar (c.toNat / 16), hexDigitChar (c.toNat % 16)]
  else [c]

/-- Escape a whole character list. -/
def escapeChars (l : List Char) : List Char :=
  l.foldr (fun c acc => escapeChar c ++ acc) []

/-- Resolve a single-character escape (the character after a backslash). -/
def unescapeChar (e : Char) : Option Char :=
  if e = '"' then some '"'
  else if e = '\\' then some '\\'
  else if e = '/' then some '/'
  else if e = 'b' then some '\x08'
  else if e = 'f' then some '\x0c'
  else if e = 'n' then some '\n'
  else if e = 'r' then some '\r'
  else if e = 't' then some '\t'
  else none

/-- Parse the body of a JSON string literal (the opening quote already
consumed) up to and including the closing quote, resolving escapes;
returns the decoded characters and the unconsumed tail. -/
def parseStrChars : List Char → Option (List Char × List Char)
  | [] => none
  | c :: rest =>
    if c = '"' then some ([], rest)
    else if c = '\\' then
      match rest with
      | [] => none
      | e :: rest1 =>
        if e = 'u' then
          match rest1 with
          | a :: b :: c2 :: d :: rest2 =>
            match hexVal a, hexVal b, hexVal c2, hexVal d with
            | some x, some y, some z, some w =>
              (parseStrChars rest2).map
                (fun p => (Char.ofNat (((x * 16 + y) * 16 + z) * 16 + w) :: p.1, p.2))
            | _, _, _, _ => none
          | _ => none
        else
          match unescapeChar e with
          | some u => (parseStrChars rest1).map (fun p => (u :: p.1, p.2))
          | none => none
    else (parseStrChars rest).map (fun p => (c :: p.1, p.2))

/-! ## JSON trees

`JVal` models the JSON-representable JavaScript values the client
serializes (numbers restricted to integers; the filters the spec's
examples use are integral). `JArr` and `JObj` are the element and
field lists, kept as mutual inductives so that structural recursion
and induction stay simple. -/

mutual
inductive JVal : Type where
  | jnull : JVal
  | jbool : Bool → JVal
  | jnum : Int → JVal
  | jstr : String → JVal
  | jarr : JArr → JVal
  | jobj : JObj → JVal
deriving DecidableEq
inductive JArr : Type where
  | anil : JArr
  | acons : JVal → JArr → JArr
deriving DecidableEq
inductive JObj : Type where
  | onil : JObj
  | ocons : String → JVal → JObj → JObj
deriving DecidableEq
end

/-- Build a field list from a Lean list of pairs. -/
def listToJObj : List (String × JVal) → JObj
  | [] => .onil
  | (k, v) :: tl => .ocons k v (listToJObj tl)

mutual
/-- The characters `JSON.stringify` emits for a value. -/
def charsV : JVal → List Char
  | .jnull => ['n', 'u', 'l', 'l']
  | .jbool true => ['t', 'r', 'u', 'e']
  | .jbool false => ['f', 'a', 'l', 's', 'e']
  | .jnum n => intChars n
  | .jstr s => '"' :: (escapeChars s.data ++ ['"'])
  | .jarr a => '[' :: charsA a
  | .jobj o => lbrace :: charsO o
/-- Array elements joined by commas, including the closing bracket. -/
def charsA : JArr → List Char
  | .anil => [']']
  | .acons v .anil => charsV v ++ [']']
  | .acons v (.acons v1 t) => charsV v ++ ',' :: charsA (.acons v1 t)
/-- Object fields joined by commas, including the closing brace. -/
def charsO : JObj → List Char
  | .onil => [rbrace]
  | .ocons k v .onil =>
    '"' :: (escapeChars k.data ++ '"' :: ':' :: (charsV v ++ [rbrace]))
  | .ocons k v (.ocons k1 v1 t) =>
    '"' :: (escapeChars k.data ++ '"' :: ':' :: (charsV v ++ ',' :: charsO (.ocons k1 v1 t)))
end

/-- `JSON.stringify` on a JSON tree. -/
def stringifyJson (v : JVal) : String := ⟨charsV v⟩

mutual
/-- Recursion-depth budget needed to parse a serialized value. -/
def needV : JVal → Nat
  | .jnull => 1
  | .jbool _ => 1
  | .jnum _ => 1
  | .jstr _ => 1
  | .jarr a => needA a + 1
  | .jobj o => needO o + 1
/-- Depth budget for an element list. -/
def needA : JArr → Nat
  | .anil => 1
  | .acons v t => needV v + needA t + 1
/-- Depth budget for a field list. -/
def needO : JObj → Nat
  | .onil => 1
  | .ocons _ v t => needV v + needO t + 1
end

/-- Expect three fixed characters, then succeed with `v`. -/
def expectLit3 (e1 e2 e3 : Char) (cs : List Char) (v : JVal) :
    Option (JVal × List Char) :=
  match cs with
  | c1 :: c2 :: c3 :: r =>
    if c1 = e1 && c2 = e2 && c3 = e3 then some (v, r) else none
  | _ => none

/-- Expect four fixed characters, then succeed with `v`. -/
def expectLit4 (e1 e2 e3 e4 : Char) (cs : List Char) (v : JVal) :
    Option (JVal × List Char) :=
  match cs with
  | c1 :: c2 :: c3 :: c4 :: r =>
    if c1 = e1 && c2 = e2 && c3 = e3 && c4 = e4 then some (v, r) else none
  | _ => none

mutual
/-- Fuelled recursive-descent parser for the whitespace-free JSON grammar
that `JSON.stringify` emits (the model of `JSON.parse` on such inputs).
Returns the parsed value and the unconsumed tail. -/
def parseV : Nat → List Char → Option (JVal × List Char)
  | 0, _ => none
  | fuel + 1, cs =>
    match cs with
    | [] => none
    | c :: rest =>
      if c = 'n' then expectLit3 'u' 'l' 'l' rest .jnull
      else if c = 't' then expectLit3 'r' 'u' 'e' rest (.jbool true)
      else if c = 'f' then expectLit4 'a' 'l' 's' 'e' rest (.jbool false)
      else if c = '"' then
        (parseStrChars rest).map (fun p => (JVal.jstr ⟨p.1⟩, p.2))
      else if c = '[' then
        match rest with
        | r1 :: rs =>
          if r1 = ']' then some (.jarr .anil, rs)
          else (parseA fuel rest).map (fun p => (JVal.jarr p.1, p.2))
        | [] => none
      else if c = lbrace then
        match rest with
        | r1 :: rs =>
          if r1 = rbrace then some (.jobj .onil, rs)
          else (parseO fuel rest).map (fun p => (JVal.jobj p.1, p.2))
        | [] => none
      else (parseNum (c :: rest)).map (fun p => (JVal.jnum p.1, p.2))
/-- Parse a non-empty element list including the closing bracket. -/
def parseA : Nat → List Char → Option (JArr × List Char)
  | 0, _ => none
  | fuel + 1, cs =>
    match parseV fuel cs with
    | some (v, rest) =>
      match rest with
      | r1 :: rs =>
        if r1 = ',' then (parseA fuel rs).map (fun p => (JArr.acons v p.1, p.2))
        else if r1 = ']' then some (.acons v .anil, rs)
        else none
      | [] => none
    | none => none
/-- Parse a non-empty field list including the closing brace. -/
def parseO : Nat → List Char → Option (JObj × List Char)
  | 0, _ => none
  | fuel + 1, cs =>
    match cs with
    | [] => none
    | c :: rest =>
      if c = '"' then
        match parseStrChars rest with
        | some (kcs, rest1) =>
          match rest1 with
          | r1 :: rs1 =>
            if r1 = ':' then
              match parseV fuel rs1 with
              | some (v, rest2) =>
                match rest2 with
                | r2 :: rs2 =>
                  if r2 = ',' then
                    (parseO fuel rs2).map (fun p => (JObj.ocons ⟨kcs⟩ v p.1, p.2))
                  else if r2 = rbrace then some (.ocons ⟨kcs⟩ v .onil, rs2)
                  else none
                | [] => none
              | none => none
            else none
          | [] => none
        | none => none
      else none
end

/-- Model of `JSON.parse`: parse a complete value. The fuel
`2 * length + 2` exceeds the depth budget of any serialized value
(proved below), so it never cuts a round trip short. -/
def parseJson (s : String) : Option JVal :=
  match parseV (2 * s.data.length + 2) s.data with
  | some (v, []) => some v
  | _ => none

/-- True when the tail cannot extend a decimal numeral. -/
def restOK : List Char → Bool
  | [] => true
  | c :: _ => !c.isDigit

/-- Characters that can start a serialized JSON value. -/
def goodStart (c : Char) : Bool :=
  c = 'n' || c = 't' || c = 'f' || c = '"' || c = '[' || c = lbrace ||
  c = '-' || c.isDigit

/-! ## The response envelope and the `request` wrapper

`MatsyaAPIService.request` wraps `fetch`: it throws on a non-2xx status,
parses the body as JSON, and converts any caught error into the uniform
`{success:false, error:{code:"API_ERROR", message}}` envelope. The
embedding is a total function over an explicit transport outcome, which
is exactly the "never throws to the caller" shape of the source. -/

/-- `APIResponse.error`: the error payload of the envelope. -/
structure ErrorInfo where
  code : String
  message : String
deriving DecidableEq

/-- `APIResponse<T>`: the uniform response envelope. -/
structure Envelope (T : Type) where
  success : Bool
  data : Option T
  error : Option ErrorInfo
deriving DecidableEq

/-- A JavaScript throwable as `request`'s catch block sees it: either an
`Error` object carrying a message, or any non-`Error` value. -/
inductive JSError : Type where
  | errObj : String → JSError
  | nonError : JSError
deriving DecidableEq

/-- The message `request` extracts from a caught value:
`error instanceof Error ? error.message : 'Unknown error'`. -/
def jsErrorMessage : JSError → String
  | .errObj m => m
  | .nonError => "Unknown error"

/-- One transport round trip as `request` observes it: the `fetch`
promise rejects, or it resolves with a status line and a body whose JSON
parse either throws or yields an envelope. -/
inductive FetchOutcome (T : Type) : Type where
  | reject : JSError → FetchOutcome T
  | resp : Nat → String → Except JSError (Envelope T) → FetchOutcome T

/-- `Response.ok`: status in the 2xx range. -/
def respOk (status : Nat) : Bool := 200 ≤ status && status ≤ 299

/-- The catch block's uniform failure envelope. -/
def apiFailure {T : Type} (e : JSError) : Envelope T :=
  { success := false, data := none,
    error := some { code := "API_ERROR", message := jsErrorMessage e } }

/-- `MatsyaAPIService.request`: throw on non-2xx (caught below), parse
the body, and convert every caught error to the failure envelope. -/
def request {T : Type} (o : FetchOutcome T) : Envelope T :=
  match o with
  | .reject e => apiFailure e
  | .resp status statusText body =>
    if respOk status then
      match body with
      | .error e => apiFailure e
      | .ok env => env
    else
      apiFailure (.errObj ("HTTP " ++ (⟨natChars status⟩ : String) ++ ": " ++ statusText))

/-- Transport outcomes the spec calls failures: rejection, non-2xx
status, or a body that fails JSON parsing. -/
def FetchOutcome.isFailure {T : Type} : FetchOutcome T → Bool
  | .reject _ => true
  | .resp _ _ (.error _) => true
  | .resp status _ (.ok _) => !respOk status

/-- Failure outcomes whose caught `Error` carries an empty message (the
only way the uniform envelope's message can be empty). -/
def FetchOutcome.blankMessage {T : Type} : FetchOutcome T → Bool
  | .reject (.errObj m) => m == ""
  | .resp _ _ (.error (.errObj m)) => m == ""
  | _ => false

/-! ## Headers -/

/-- The constructor's default headers (`this.headers`). -/
def defaultHeaders : List (String × String) :=
  [("Content-Type", "application/json"), ("Accept", "application/json")]

/-- Lookup in a header object (last binding of a key wins on spread, so
plain association lookup over these duplicate-free lists). -/
def headerLookup (hs : List (String × String)) (k : String) : Option String :=
  match hs.find? (fun p => p.1 == k) with
  | some p => some p.2
  | none => none

/-- The effective headers of a request:
`{...this.headers, ...options.headers}` — option headers override the
defaults key-by-key, defaults otherwise remain. -/
def effectiveHeader (optionHeaders : List (String × String)) (k : String) :
    Option String :=
  match headerLookup optionHeaders k with
  | some v => some v
  | none => headerLookup defaultHeaders k

/-- The `options.headers` that `ingestData` passes with its `FormData`
body (the source comments "Remove Content-Type to let browser set it
with boundary for FormData" and passes only `Accept`). -/
def ingestOptionHeaders : List (String × String) :=
  [("Accept", "application/json")]

/-! ## `ingestData`: multipart form assembly -/

/-- A selected file (content opaque; only identity matters here). -/
structure FileRepr where
  name : String
  content : String
deriving DecidableEq

/-- `DataIngestionRequest.data`: a `File` or an inline string payload. -/
inductive IngestPayload : Type where
  | file : FileRepr → IngestPayload
  | inline : String → IngestPayload
deriving DecidableEq

/-- `DataIngestionRequest.format` discriminator. -/
inductive IngestFormat : Type where
  | csv | json | dwca | obisEnv
deriving DecidableEq

/-- The wire string of the format discriminator. -/
def formatString : IngestFormat → String
  | .csv => "csv"
  | .json => "json"
  | .dwca => "dwc-a"
  | .obisEnv => "obis-env"

/-- `DataIngestionRequest.metadata` (a missing citation is `undefined`
and is dropped by `JSON.stringify`). -/
structure IngestMetadata where
  source : String
  contributor : String
  license : String
  citation : Option String
deriving DecidableEq

/-- `DataIngestionRequest.validation`. -/
structure ValidationOptions where
  strict : Bool
  skipErrors : Bool
deriving DecidableEq

/-- `DataIngestionRequest`. -/
structure DataIngestionRequest where
  format : IngestFormat
  data : IngestPayload
  mapping : Option (List (String × String))
  validation : Option ValidationOptions
  metadata : IngestMetadata
deriving DecidableEq

/-- JSON image of the metadata object (`JSON.stringify` drops the
`undefined` citation field). -/
def metadataToJVal (m : IngestMetadata) : JVal :=
  .jobj (listToJObj
    ([("source", .jstr m.source), ("contributor", .jstr m.contributor),
      ("license", .jstr m.license)] ++
     (match m.citation with
      | some c => [("citation", JVal.jstr c)]
      | none => [])))

/-- JSON image of a field-mapping record. -/
def mappingToJVal (m : List (String × String)) : JVal :=
  .jobj (listToJObj (m.map (fun p => (p.1, JVal.jstr p.2))))

/-- JSON image of the validation options. -/
def validationToJVal (v : ValidationOptions) : JVal :=
  .jobj (listToJObj [("strict", .jbool v.strict), ("skipErrors", .jbool v.skipErrors)])

/-- A `FormData` entry value: an appended `File` or a string. -/
inductive FormValue : Type where
  | fileVal : FileRepr → FormValue
  | strVal : String → FormValue
deriving DecidableEq

/-- The `FormData` body `ingestData` builds, in append order: the file
(or inline payload), the format, the JSON-encoded metadata, then the
JSON-encoded mapping and validation exactly when present (they are
objects, hence truthy whenever defined). -/
def ingestFormData (r : DataIngestionRequest) : List (String × FormValue) :=
  (match r.data with
   | .file f => [("file", FormValue.fileVal f)]
   | .inline s => [("data", FormValue.strVal s)]) ++
  [("format", FormValue.strVal (formatString r.format)),
   ("metadata", FormValue.strVal (stringifyJson (metadataToJVal r.metadata)))] ++
  (match r.mapping with
   | some m => [("mapping", FormValue.strVal (stringifyJson (mappingToJVal m)))]
   | none => []) ++
  (match r.validation with
   | some v => [("validation", FormValue.strVal (stringifyJson (validationToJVal v)))]
   | none => [])

/-! ## Query-parameter serialization -/

/-- A defined value of a read-request parameter object, as the
serialization loop type-tests it: a string, a number, or an
object-typed value (objects and arrays, for which
`typeof value === 'object'`). -/
inductive SearchParamValue : Type where
  | str : String → SearchParamValue
  | num : Int → SearchParamValue
  | obj : JVal → SearchParamValue
deriving DecidableEq

/-- What the loop appends for one defined value: `JSON.stringify` for
object-typed values, `toString` otherwise. -/
def paramToString : SearchParamValue → String
  | .str s => s
  | .num n => ⟨intChars n⟩
  | .obj j => stringifyJson j

/-- The `URLSearchParams` built by `searchMarineData`,
`getOceanographicData` and `getResearchVessels`: skip `undefined`
entries, JSON-encode object-typed values, `toString` the rest. -/
def serializeParams (ps : List (String × Option SearchParamValue)) :
    List (String × String) :=
  ps.filterMap (fun p =>
    match p.2 with
    | none => none
    | some v => some (p.1, paramToString v))

/-! ## `connectRealTimeStream`: socket URL and message handling -/

/-- JavaScript `String.prototype.replace` with a string pattern:
replace the first occurrence only. -/
def replaceFirst (pat rep : List Char) : List Char → List Char
  | [] => []
  | c :: cs =>
    if pat.isPrefixOf (c :: cs) then rep ++ (c :: cs).drop pat.length
    else c :: replaceFirst pat rep cs

/-- The socket endpoint: `API_BASE_URL.replace('http', 'ws') + '/ws'`. -/
def wsUrl (base : String) : String :=
  ⟨replaceFirst "http".data "ws".data base.data⟩ ++ "/ws"

/-- The observable effect of one inbound socket message: the arguments
the caller's callback is invoked with, and whether the handler closed
the connection. -/
structure WSMessageEffect where
  callbackArgs : List JVal
  closed : Bool
deriving DecidableEq

/-- The `ws.onmessage` handler: parse the message as JSON and invoke the
callback once on success; a parse failure is logged and dropped, and the
handler never closes the connection. -/
def wsOnMessage (raw : String) : WSMessageEffect :=
  match parseJson raw with
  | some v => { callbackArgs := [v], closed := false }
  | none => { callbackArgs := [], closed := false }

/-! ## Coordinate assembly in the analysis forms

Both `SpeciesIdentification.handleAnalyze` and
`eDNAAnalysis.handleAnalyze` build the optional coordinate object as
`location.latitude && location.longitude ? {latitude: parseFloat(...),
longitude: parseFloat(...)} : undefined`; a string is truthy exactly
when non-empty. `parseFloat` is kept abstract: the claims are about
presence, not numeric values. -/

/-- `SpeciesIdentification.handleAnalyze`'s `metadata.location`. -/
def speciesLocation {α : Type} (parseFloat : String → α)
    (latitude longitude : String) : Option (α × α) :=
  if latitude ≠ "" && longitude ≠ "" then
    some (parseFloat latitude, parseFloat longitude)
  else none

/-- `eDNAAnalysis.handleAnalyze`'s `metadata.sampleLocation`. -/
def ednaSampleLocation {α : Type} (parseFloat : String → α)
    (latitude longitude : String) : Option (α × α) :=
  if latitude ≠ "" && longitude ≠ "" then
    some (parseFloat latitude, parseFloat longitude)
  else none

/-! ## `eDNAAnalysis.handleAnalyze`: sequence validation -/

/-- The IUPAC nucleotide codes accepted by the validation regex
`^[ATCGRYSWKMBDHVN]+$`. -/
def isIUPAC (c : Char) : Bool :=
  "ATCGRYSWKMBDHVN".data.contains c

/-- `sequence.replace(/\s/g, '').toUpperCase()`: strip all whitespace,
then uppercase. -/
def cleanSequence (s : String) : String :=
  ⟨(s.data.filter (fun c => !jsIsSpace c)).map asciiUpper⟩

/-- The sequence-handling slice of `eDNAAnalysis.handleAnalyze`: the
guard chain up to the request, returning either the error message set
or the `sequence` field of the request that is sent (the metadata
fields are orthogonal and modelled separately). -/
def handleAnalyzeSequence (sequence : String) : Except String String :=
  if jsTrim sequence = "" then .error "Please enter a DNA sequence"
  else
    let clean := cleanSequence sequence
    if !(!clean.data.isEmpty && clean.data.all isIUPAC) then
      .error "Invalid DNA sequence. Please use only valid nucleotide codes (A, T, C, G, R, Y, S, W, K, M, B, D, H, V, N)"
    else if clean.data.length < 50 then
      .error "Sequence too short. Please provide at least 50 base pairs for reliable identification"
    else .ok clean

/-! ## `DataIngestion`: upload handler and status polling -/

/-- `DataIngestionResponse.status`. -/
inductive JobStatus : Type where
  | queued | processing | completed | failed
deriving DecidableEq

/-- The slice of `DataIngestionResponse` the polling claims depend on
(the remaining counters and report fields ride along unchanged and are
not consulted by the control flow). -/
structure IngestionJob where
  jobId : String
  status : JobStatus
  recordsProcessed : Nat
deriving DecidableEq

/-- Terminal statuses: `completed` or `failed`. -/
def terminalStatus (s : JobStatus) : Bool :=
  s == .completed || s == .failed

/-- `response.success && response.data` with a terminal status: the
observation that stops the poll loop. -/
def observedTerminal (e : Envelope IngestionJob) : Bool :=
  e.success &&
    (match e.data with
     | some job => terminalStatus job.status
     | none => false)

/-- A poll observation the `if (response.success && response.data)`
guard rejects. -/
def observedFailure (e : Envelope IngestionJob) : Bool :=
  !(e.success && e.data.isSome)

/-- `queued`-or-`processing` submission responses, for which
`handleUpload` starts polling. -/
def startsPolling (e : Envelope IngestionJob) : Bool :=
  e.success &&
    (match e.data with
     | some job => job.status == .queued || job.status == .processing
     | none => false)

/-- `maxAttempts = 30`. -/
def maxAttempts : Nat := 30

/-- `setTimeout(poll, 5000)`: the initial delay, in seconds. -/
def initialDelay : Nat := 5

/-- `setTimeout(poll, 10000)`: the re-check interval, in seconds. -/
def pollInterval : Nat := 10

/-- The sequence of status checks `pollIngestionStatus` performs, given
the environment's response to the `k`-th check. Each entry is the
absolute time of the check and the envelope observed. Mirrors `poll`:
record the observation; a successful terminal observation returns; a
successful non-terminal observation re-schedules while
`attempts < maxAttempts` (incrementing `attempts`); a rejected
observation (`success` false or no `data`) just logs, scheduling
nothing. The fuel starts at `maxAttempts + 1` and stays equal to
`maxAttempts + 1 - attempts`, so it never cuts the loop short. -/
def pollSteps (respAt : Nat → Envelope IngestionJob) :
    Nat → Nat → Nat → Nat → List (Nat × Envelope IngestionJob)
  | 0, _, _, _ => []
  | fuel + 1, k, attempts, time =>
    let e := respAt k
    (time, e) ::
      (if e.success then
        match e.data with
        | some job =>
          if terminalStatus job.status then []
          else if attempts < maxAttempts then
            pollSteps respAt fuel (k + 1) (attempts + 1) (time + pollInterval)
          else []
        | none => []
      else [])

/-- `pollIngestionStatus`: first check after the initial delay,
`attempts` starting at 0. -/
def pollTrace (respAt : Nat → Envelope IngestionJob) :
    List (Nat × Envelope IngestionJob) :=
  pollSteps respAt (maxAttempts + 1) 0 0 initialDelay

/-- The form state `handleUpload` reads. -/
structure IngestFormState where
  selectedFile : Option FileRepr
  source : String
  contributor : String
  license : String
  citation : String
  strictValidation : Bool
  skipErrors : Bool
  fieldMapping : String
  uploadResult : Option IngestionJob
deriving DecidableEq

/-- The observable outcome of one `handleUpload` run: the error message
shown (if any), the held upload result afterwards, whether
`matsyaAPI.ingestData` was called, and whether status polling was
started. -/
structure UploadOutcome where
  error : Option String
  uploadResult : Option IngestionJob
  apiCalled : Bool
  pollStarted : Bool
deriving DecidableEq

/-- `DataIngestion.handleUpload`. Guards run first: no file, blank
source, blank contributor each set their message and return before the
API call. Then the request is built (`JSON.parse` of a non-blank field
mapping can throw — `mappingThrow` is the message of that throwable,
reaching the catch block) and `ingestData` is awaited with response
`resp`; on `success && data` the result replaces the held snapshot and
polling starts for `queued`/`processing`, otherwise the response error
message (or `'Upload failed'` when absent or empty) is shown. -/
def handleUpload (st : IngestFormState) (mappingThrow : Option String)
    (resp : Envelope IngestionJob) : UploadOutcome :=
  if st.selectedFile.isNone then
    { error := some "Please select a file to upload",
      uploadResult := st.uploadResult, apiCalled := false, pollStarted := false }
  else if jsTrim st.source = "" then
    { error := some "Please specify the data source",
      uploadResult := st.uploadResult, apiCalled := false, pollStarted := false }
  else if jsTrim st.contributor = "" then
    { error := some "Please specify the contributor",
      uploadResult := st.uploadResult, apiCalled := false, pollStarted := false }
  else
    match (if jsTrim st.fieldMapping = "" then none else mappingThrow) with
    | some m =>
      { error := some m, uploadResult := st.uploadResult,
        apiCalled := false, pollStarted := false }
    | none =>
      if resp.success then
        match resp.data with
        | some job =>
          { error := none, uploadResult := some job, apiCalled := true,
            pollStarted := startsPolling resp }
        | none =>
          { error := some
              (match resp.error with
               | some e => if e.message = "" then "Upload failed" else e.message
               | none => "Upload failed"),
            uploadResult := st.uploadResult, apiCalled := true, pollStarted := false }
      else
        { error := some
            (match resp.error with
             | some e => if e.message = "" then "Upload failed" else e.message
             | none => "Upload failed"),
          uploadResult := st.uploadResult, apiCalled := true, pollStarted := false }

/-! ## Concrete sample inputs used by witnesses and counterexamples -/

/-- A successful `processing` status response. -/
def processingEnv : Envelope IngestionJob :=
  { success := true,
    data := some { jobId := "job-1", status := .processing, recordsProcessed := 0 },
    error := none }

/-- A successful `completed` status response. -/
def completedEnv : Envelope IngestionJob :=
  { success := true,
    data := some { jobId := "job-1", status := .completed, recordsProcessed := 10 },
    error := none }

/-- A failed status response (as `request` shapes transport failures). -/
def failEnv : Envelope IngestionJob :=
  { success := false, data := none,
    error := some { code := "API_ERROR", message := "Network error" } }

/-- Environment whose every status check answers `processing`. -/
def respAlwaysProcessing : Nat → Envelope IngestionJob := fun _ => processingEnv

/-- Environment whose first status check fails, the rest `processing`. -/
def respFailThenProcessing : Nat → Envelope IngestionJob :=
  fun k => if k = 0 then failEnv else processingEnv

/-- Environment answering `processing` once, then `completed`. -/
def respProcThenCompleted : Nat → Envelope IngestionJob :=
  fun k => if k = 0 then processingEnv else completedEnv

/-- A selected CSV file. -/
def sampleFile : FileRepr := { name := "data.csv", content := "a,b" }

/-- A form state that passes every upload guard. -/
def stGood : IngestFormState :=
  { selectedFile := some sampleFile, source := "OBIS", contributor := "Lab",
    license := "CC-BY", citation := "", strictValidation := true,
    skipErrors := false, fieldMapping := "",
    uploadResult := some { jobId := "old", status := .completed, recordsProcessed := 3 } }

/-- The same state with a whitespace-only source. -/
def stBlankSource : IngestFormState := { stGood with source := " \t " }

/-- The same state with a whitespace-only contributor. -/
def stBlankContributor : IngestFormState := { stGood with contributor := "   " }

/-- The same state with no selected file. -/
def stNoFile : IngestFormState := { stGood with selectedFile := none }

/-- A concrete ingestion request: CSV file, metadata without citation,
validation options supplied, no field mapping. -/
def sampleIngestReq : DataIngestionRequest :=
  { format := .csv, data := .file sampleFile, mapping := none,
    validation := some { strict := true, skipErrors := false },
    metadata := { source := "OBIS", contributor := "Lab", license := "CC-BY",
                  citation := none } }

/-- The spec's example object-valued filter `\x7blat:1,lng:2,radius:5\x7d`. -/
def locFilter : JVal :=
  .jobj (listToJObj [("lat", .jnum 1), ("lng", .jnum 2), ("radius", .jnum 5)])

/-- A read-request parameter object with an object-valued filter, a
numeric parameter and an undefined one. -/
def sampleSearchParams : List (String × Option SearchParamValue) :=
  [("location", some (.obj locFilter)), ("limit", some (.num 100)),
   ("scientificName", none)]

/-! ## Lemmas: decimal numerals -/

theorem digitChar_isDigit (n : Nat) : (digitChar n).isDigit = true := by
  unfold digitChar
  split <;> decide

theorem charDigitVal_digitChar (n : Nat) (h : n < 10) :
    charDigitVal (digitChar n) = n := by
  interval_cases n <;> decide

theorem natCharsAux_congr (f1 : Nat) : ∀ f2 n, n < f1 → n < f2 →
    natCharsAux f1 n = natCharsAux f2 n := by
  induction f1 with
  | zero => intro f2 n h1; omega
  | succ g ih =>
    intro f2 n h1 h2
    match f2, h2 with
    | f2 + 1, _ =>
      simp only [natCharsAux]
      by_cases h10 : n < 10
      · simp [h10]
      · simp only [h10, if_false]
        have hdiv : n / 10 < n := Nat.div_lt_self (by omega) (by omega)
        rw [ih f2 (n / 10) (by omega) (by omega)]

theorem natChars_eq (n : Nat) :
    natChars n = if n < 10 then [digitChar n]
      else natChars (n / 10) ++ [digitChar (n % 10)] := by
  by_cases h10 : n < 10
  · simp [natChars, natCharsAux, h10]
  · have hdiv : n / 10 < n := Nat.div_lt_self (by omega) (by omega)
    have hstep : natChars n = natCharsAux n (n / 10) ++ [digitChar (n % 10)] := by
      rw [natChars]
      rw [show natCharsAux (n + 1) n = if n < 10 then [digitChar n]
        else natCharsAux n (n / 10) ++ [digitChar (n % 10)] from rfl]
      simp [h10]
    rw [hstep, natCharsAux_congr n (n / 10 + 1) (n / 10) (by omega) (by omega)]
    simp [h10, natChars]

theorem natChars_cons (n : Nat) :
    ∃ c cs, natChars n = c :: cs ∧ c.isDigit = true := by
  induction n using Nat.strong_induction_on with
  | _ n ih =>
    rw [natChars_eq]
    by_cases h10 : n < 10
    · exact ⟨digitChar n, [], by simp [h10], digitChar_isDigit n⟩
    · have hdiv : n / 10 < n := Nat.div_lt_self (by omega) (by omega)
      obtain ⟨c, cs, hc, hd⟩ := ih (n / 10) hdiv
      exact ⟨c, cs ++ [digitChar (n % 10)], by simp [h10, hc], hd⟩

theorem natChars_all_digits (n : Nat) :
    (natChars n).all Char.isDigit = true := by
  induction n using Nat.strong_induction_on with
  | _ n ih =>
    rw [natChars_eq]
    by_cases h10 : n < 10
    · simp [h10, digitChar_isDigit]
    · have hdiv : n / 10 < n := Nat.div_lt_self (by omega) (by omega)
      simp [h10, List.all_append, ih (n / 10) hdiv, digitChar_isDigit]

theorem takeDigits_all (l : List Char) : ∀ acc rest,
    l.all Char.isDigit = true → restOK rest = true →
    takeDigits (l ++ rest) acc =
      (l.foldl (fun a c => a * 10 + charDigitVal c) acc, rest) := by
  induction l with
  | nil =>
    intro acc rest _ hrest
    cases rest with
    | nil => simp [takeDigits]
    | cons c cs =>
      simp only [restOK, Bool.not_eq_true'] at hrest
      simp [takeDigits, hrest]
  | cons d l ih =>
    intro acc rest hall hrest
    simp only [List.all_cons, Bool.and_eq_true] at hall
    simp [takeDigits, hall.1, ih _ rest hall.2 hrest]

theorem foldl_natChars (n : Nat) : ∀ acc,
    (natChars n).foldl (fun a c => a * 10 + charDigitVal c) acc =
      acc * 10 ^ (natChars n).length + n := by
  induction n using Nat.strong_induction_on with
  | _ n ih =>
    intro acc
    rw [natChars_eq]
    by_cases h10 : n < 10
    · simp [h10, charDigitVal_digitChar n h10]
    · have hdiv : n / 10 < n := Nat.div_lt_self (by omega) (by omega)
      simp only [h10, if_false, List.foldl_append, List.length_append,
        List.foldl_cons, List.foldl_nil, List.length_cons, List.length_nil]
      rw [ih (n / 10) hdiv acc, charDigitVal_digitChar (n % 10) (by omega)]
      have hmod : n / 10 * 10 + n % 10 = n := by omega
      rw [pow_succ]
      ring_nf
      omega

theorem takeDigits_natChars (n : Nat) (rest : List Char) (acc : Nat)
    (h : restOK rest = true) :
    takeDigits (natChars n ++ rest) acc =
      (acc * 10 ^ (natChars n).length + n, rest) := by
  rw [takeDigits_all (natChars n) acc rest (natChars_all_digits n) h,
    foldl_natChars]

theorem parseNum_intChars (n : Int) (rest : List Char)
    (h : restOK rest = true) :
    parseNum (intChars n ++ rest) = some (n, rest) := by
  have hdig : ∀ m, parseNum (natChars m ++ rest) = some ((m : Int), rest) := by
    intro m
    obtain ⟨c, cs, hc, hd⟩ := natChars_cons m
    have hne : c ≠ '-' := by
      intro he; subst he; exact absurd hd (by decide)
    have htd := takeDigits_natChars m rest 0 h
    rw [hc] at htd ⊢
    simp only [List.cons_append] at htd ⊢
    simp only [takeDigits, hd, if_true] at htd
    simp only [parseNum, hne, if_false, hd, if_true]
    simp only [Nat.zero_mul, Nat.zero_add] at htd
    rw [htd]
  cases n with
  | ofNat m => exact hdig m
  | negSucc m =>
    obtain ⟨c, cs, hc, hd⟩ := natChars_cons (m + 1)
    have htd := takeDigits_natChars (m + 1) rest 0 h
    rw [hc] at htd
    simp only [List.cons_append, takeDigits, hd, if_true] at htd
    simp only [Nat.zero_mul, Nat.zero_add, List.append_eq] at htd
    simp only [intChars, List.cons_append, hc]
    have hred : parseNum ('-' :: (c :: (cs ++ rest))) =
        (if c.isDigit = true then
          some (-((takeDigits (cs ++ rest) (charDigitVal c)).1 : Int),
                (takeDigits (cs ++ rest) (charDigitVal c)).2)
         else none) := rfl
    rw [hred, if_pos hd, htd]
    simp only [Option.some.injEq, Prod.mk.injEq, and_true, Int.negSucc_eq]
    push_cast
    ring

/-! ## Lemmas: JSON string escaping round trip -/

theorem hexVal_hexDigitChar (n : Nat) (h : n < 16) :
    hexVal (hexDigitChar n) = some n := by
  interval_cases n <;> decide

theorem mk_data (s : String) : (⟨s.data⟩ : String) = s := rfl

theorem parseStrChars_escape (l : List Char) : ∀ rest : List Char,
    parseStrChars (escapeChars l ++ ('"' :: rest)) = some (l, rest) := by
  induction l with
  | nil =>
    intro rest
    rw [show escapeChars [] = [] from rfl, List.nil_append,
      parseStrChars.eq_def]
    simp
  | cons c l ih =>
    intro rest
    have hesc : escapeChars (c :: l) = escapeChar c ++ escapeChars l := rfl
    rw [hesc, List.append_assoc]
    have hu : ∀ t, t < 32 → ∀ M : List Char,
        parseStrChars ('\\' :: 'u' :: '0' :: '0' ::
            hexDigitChar (t / 16) :: hexDigitChar (t % 16) :: M) =
          (parseStrChars M).map (fun p => (Char.ofNat t :: p.1, p.2)) := by
      intro t ht M
      interval_cases t <;> simp [parseStrChars, hexVal, hexDigitChar]
    by_cases h1 : c = '"'
    · subst h1
      rw [show escapeChar '"' = ['\\', '"'] from rfl]
      rw [parseStrChars.eq_def]
      simp [unescapeChar, ih rest]
    by_cases h2 : c = '\\'
    · subst h2
      rw [show escapeChar '\\' = ['\\', '\\'] from rfl]
      rw [parseStrChars.eq_def]
      simp [unescapeChar, ih rest]
    by_cases h3 : c = '\x08'
    · subst h3
      rw [show escapeChar '\x08' = ['\\', 'b'] from rfl]
      rw [parseStrChars.eq_def]
      simp [unescapeChar, ih rest]
    by_cases h4 : c = '\x0c'
    · subst h4
      rw [show escapeChar '\x0c' = ['\\', 'f'] from rfl]
      rw [parseStrChars.eq_def]
      simp [unescapeChar, ih rest]
    by_cases h5 : c = '\n'
    · subst h5
      rw [show escapeChar '\n' = ['\\', 'n'] from rfl]
      rw [parseStrChars.eq_def]
      simp [unescapeChar, ih rest]
    by_cases h6 : c = '\r'
    · subst h6
      rw [show escapeChar '\r' = ['\\', 'r'] from rfl]
      rw [parseStrChars.eq_def]
      simp [unescapeChar, ih rest]
    by_cases h7 : c = '\t'
    · subst h7
      rw [show escapeChar '\t' = ['\\', 't'] from rfl]
      rw [parseStrChars.eq_def]
      simp [unescapeChar, ih rest]
    by_cases h8 : c.toNat < 32
    · have hbranch : escapeChar c = ['\\', 'u', '0', '0',
          hexDigitChar (c.toNat / 16), hexDigitChar (c.toNat % 16)] := by
        unfold escapeChar
        rw [if_neg h1, if_neg h2, if_neg h3, if_neg h4, if_neg h5, if_neg h6,
          if_neg h7, if_pos h8]
      rw [hbranch]
      simp only [List.cons_append, List.nil_append]
      rw [hu c.toNat h8 (escapeChars l ++ '"' :: rest), Char.ofNat_toNat,
        ih rest]
      rfl
    · have hbranch : escapeChar c = [c] := by
        unfold escapeChar
        rw [if_neg h1, if_neg h2, if_neg h3, if_neg h4, if_neg h5, if_neg h6,
          if_neg h7, if_neg h8]
      rw [hbranch]
      simp only [List.cons_append, List.nil_append]
      rw [parseStrChars.eq_def]
      simp [h1, h2, ih rest]

/-! ## Lemmas: leading characters and depth budgets -/

theorem isDigit_ne_special (c : Char) (h : c.isDigit = true) :
    c ≠ 'n' ∧ c ≠ 't' ∧ c ≠ 'f' ∧ c ≠ '"' ∧ c ≠ '[' ∧ c ≠ lbrace ∧
    c ≠ '-' ∧ c ≠ ']' ∧ c ≠ ',' ∧ c ≠ rbrace ∧ c ≠ ':' := by
  refine ⟨?_, ?_, ?_, ?_, ?_, ?_, ?_, ?_, ?_, ?_, ?_⟩ <;>
    (intro he; subst he; exact absurd h (by decide))

theorem intChars_head (n : Int) :
    ∃ c cs, intChars n = c :: cs ∧ (c.isDigit = true ∨ c = '-') := by
  cases n with
  | ofNat m =>
    obtain ⟨c, cs, hc, hd⟩ := natChars_cons m
    exact ⟨c, cs, hc, Or.inl hd⟩
  | negSucc m => exact ⟨'-', natChars (m + 1), rfl, Or.inr rfl⟩

theorem charsV_head (v : JVal) :
    ∃ c cs, charsV v = c :: cs ∧ goodStart c = true := by
  cases v with
  | jnull => exact ⟨'n', ['u', 'l', 'l'], by simp [charsV], by decide⟩
  | jbool b =>
    cases b with
    | true => exact ⟨'t', ['r', 'u', 'e'], by simp [charsV], by decide⟩
    | false => exact ⟨'f', ['a', 'l', 's', 'e'], by simp [charsV], by decide⟩
  | jnum n =>
    obtain ⟨c, cs, hc, hd⟩ := intChars_head n
    refine ⟨c, cs, by simp [charsV, hc], ?_⟩
    cases hd with
    | inl hdig => simp [goodStart, hdig]
    | inr hminus => subst hminus; decide
  | jstr s =>
    exact ⟨'"', escapeChars s.data ++ ['"'], by simp [charsV], by decide⟩
  | jarr a => exact ⟨'[', charsA a, by simp [charsV], by decide⟩
  | jobj o => exact ⟨lbrace, charsO o, by simp [charsV], by decide⟩

theorem goodStart_not_closing (c : Char) (h : goodStart c = true) :
    c ≠ ']' ∧ c ≠ rbrace := by
  simp only [goodStart, Bool.or_eq_true, decide_eq_true_eq] at h
  rcases h with ((((((h | h) | h) | h) | h) | h) | h) | h
  all_goals first
    | (subst h; exact ⟨by decide, by decide⟩)
    | (exact ⟨(isDigit_ne_special c h).2.2.2.2.2.2.2.1,
              (isDigit_ne_special c h).2.2.2.2.2.2.2.2.2.1⟩)

theorem one_le_needV (v : JVal) : 1 ≤ needV v := by
  cases v <;> simp [needV]

theorem one_le_needA (a : JArr) : 1 ≤ needA a := by
  cases a <;> simp [needA]

theorem one_le_needO (o : JObj) : 1 ≤ needO o := by
  cases o <;> simp [needO]

mutual

theorem needV_le (v : JVal) : needV v ≤ 2 * (charsV v).length := by
  cases v with
  | jnull => simp [needV, charsV]
  | jbool b => cases b <;> simp [needV, charsV]
  | jnum n =>
    obtain ⟨c, cs, hc, _⟩ := intChars_head n
    simp [needV, charsV, hc]
    omega
  | jstr s => simp [needV, charsV]; omega
  | jarr a =>
    have h := needA_le a
    simp only [needV, charsV, List.length_cons]
    omega
  | jobj o =>
    have h := needO_le o
    simp only [needV, charsV, List.length_cons]
    omega

theorem needA_le (a : JArr) : needA a ≤ 2 * (charsA a).length := by
  cases a with
  | anil => simp [needA, charsA]
  | acons v t =>
    have hv := needV_le v
    cases t with
    | anil =>
      simp only [needA, charsA, List.length_append, List.length_cons,
        List.length_nil]
      omega
    | acons v1 t1 =>
      have ht := needA_le (JArr.acons v1 t1)
      simp only [needA] at ht
      simp only [needA, charsA, List.length_append, List.length_cons]
      omega

theorem needO_le (o : JObj) : needO o ≤ 2 * (charsO o).length := by
  cases o with
  | onil => simp [needO, charsO]
  | ocons k v t =>
    have hv := needV_le v
    cases t with
    | onil =>
      simp only [needO, charsO, List.length_append, List.length_cons,
        List.length_nil]
      omega
    | ocons k1 v1 t1 =>
      have ht := needO_le (JObj.ocons k1 v1 t1)
      simp only [needO] at ht
      simp only [needO, charsO, List.length_append, List.length_cons]
      omega

end

/-! ## The round trip: parsing a serialized value -/

mutual

theorem parseV_charsV (v : JVal) (fuel : Nat) (h : needV v ≤ fuel)
    (rest : List Char) (hrest : restOK rest = true) :
    parseV fuel (charsV v ++ rest) = some (v, rest) := by
  cases fuel with
  | zero => exact absurd h (by have := one_le_needV v; omega)
  | succ f =>
    cases v with
    | jnull =>
      rw [show charsV .jnull = ['n', 'u', 'l', 'l'] from by simp [charsV]]
      rw [parseV.eq_def]
      simp [expectLit3]
    | jbool b =>
      cases b with
      | true =>
        rw [show charsV (.jbool true) = ['t', 'r', 'u', 'e'] from by simp [charsV]]
        rw [parseV.eq_def]
        simp [expectLit3]
      | false =>
        rw [show charsV (.jbool false) = ['f', 'a', 'l', 's', 'e'] from by
          simp [charsV]]
        rw [parseV.eq_def]
        simp [expectLit4]
    | jnum n =>
      obtain ⟨c, cs, hc, hd⟩ := intChars_head n
      have hne : c ≠ 'n' ∧ c ≠ 't' ∧ c ≠ 'f' ∧ c ≠ '"' ∧ c ≠ '[' ∧
          c ≠ lbrace := by
        cases hd with
        | inl hdig =>
          obtain ⟨a1, a2, a3, a4, a5, a6, _⟩ := isDigit_ne_special c hdig
          exact ⟨a1, a2, a3, a4, a5, a6⟩
        | inr hm =>
          subst hm
          exact ⟨by decide, by decide, by decide, by decide, by decide, by decide⟩
      have hpn : parseNum (c :: (cs ++ rest)) = some (n, rest) := by
        rw [show c :: (cs ++ rest) = intChars n ++ rest from by
          rw [hc]; rfl]
        exact parseNum_intChars n rest hrest
      rw [show charsV (.jnum n) = intChars n from by simp [charsV], hc]
      rw [show (c :: cs) ++ rest = c :: (cs ++ rest) from rfl]
      rw [parseV.eq_def]
      simp [hne.1, hne.2.1, hne.2.2.1, hne.2.2.2.1, hne.2.2.2.2.1,
        hne.2.2.2.2.2, hpn]
    | jstr s =>
      rw [show charsV (.jstr s) = '"' :: (escapeChars s.data ++ ['"']) from by
        simp [charsV]]
      rw [show ('"' :: (escapeChars s.data ++ ['"'])) ++ rest =
        '"' :: (escapeChars s.data ++ ('"' :: rest)) from by simp]
      rw [parseV.eq_def]
      simp [parseStrChars_escape s.data rest]
    | jarr a =>
      cases a with
      | anil =>
        rw [show charsV (.jarr .anil) = ['[', ']'] from by simp [charsV, charsA]]
        rw [parseV.eq_def]
        simp
      | acons v1 t1 =>
        have hf : needA (.acons v1 t1) ≤ f := by
          simp only [needV] at h; omega
        have hA := parseA_charsA v1 t1 f hf rest
        obtain ⟨c0, l0, hc0, hg0⟩ := charsV_head v1
        have hc0ne := (goodStart_not_closing c0 hg0).1
        cases t1 with
        | anil =>
          have hsplit : charsA (.acons v1 .anil) ++ rest =
              c0 :: (l0 ++ (']' :: rest)) := by
            simp [charsA, hc0]
          rw [show charsV (.jarr (.acons v1 .anil)) =
            '[' :: charsA (.acons v1 .anil) from by simp [charsV]]
          rw [show ('[' :: charsA (.acons v1 .anil)) ++ rest =
            '[' :: (charsA (.acons v1 .anil) ++ rest) from rfl]
          have hA2 := hA
          rw [hsplit] at hA2
          rw [parseV.eq_def, hsplit]
          simp [hc0ne, hA2]
        | acons v2 t2 =>
          have hsplit : charsA (.acons v1 (.acons v2 t2)) ++ rest =
              c0 :: (l0 ++ (',' :: (charsA (.acons v2 t2) ++ rest))) := by
            simp [charsA, hc0]
          rw [show charsV (.jarr (.acons v1 (.acons v2 t2))) =
            '[' :: charsA (.acons v1 (.acons v2 t2)) from by simp [charsV]]
          rw [show ('[' :: charsA (.acons v1 (.acons v2 t2))) ++ rest =
            '[' :: (charsA (.acons v1 (.acons v2 t2)) ++ rest) from rfl]
          have hA2 := hA
          rw [hsplit] at hA2
          rw [parseV.eq_def, hsplit]
          simp [hc0ne, hA2]
    | jobj o =>
      cases o with
      | onil =>
        rw [show charsV (.jobj .onil) = [lbrace, rbrace] from by
          simp [charsV, charsO]]
        rw [parseV.eq_def]
        simp [lbrace, rbrace]
      | ocons k1 v1 t1 =>
        have hf : needO (.ocons k1 v1 t1) ≤ f := by
          simp only [needV] at h; omega
        have hO := parseO_charsO k1 v1 t1 f hf rest
        have hqne : ('"' : Char) ≠ rbrace := by decide
        have hl1 : lbrace ≠ 'n' := by decide
        have hl2 : lbrace ≠ 't' := by decide
        have hl3 : lbrace ≠ 'f' := by decide
        have hl4 : lbrace ≠ '"' := by decide
        have hl5 : lbrace ≠ '[' := by decide
        cases t1 with
        | onil =>
          have hsplit : charsO (.ocons k1 v1 .onil) ++ rest =
              '"' :: (escapeChars k1.data ++ '"' :: ':' ::
                (charsV v1 ++ [rbrace]) ++ rest) := by
            simp [charsO]
          rw [show charsV (.jobj (.ocons k1 v1 .onil)) =
            lbrace :: charsO (.ocons k1 v1 .onil) from by simp [charsV]]
          rw [show (lbrace :: charsO (.ocons k1 v1 .onil)) ++ rest =
            lbrace :: (charsO (.ocons k1 v1 .onil) ++ rest) from rfl]
          have hO2 := hO
          rw [hsplit] at hO2
          simp only [List.append_assoc, List.cons_append, List.nil_append]
            at hO2
          rw [parseV.eq_def, hsplit]
          simp [hl1, hl2, hl3, hl4, hl5, hqne, hO2]
        | ocons k2 v2 t2 =>
          have hsplit : charsO (.ocons k1 v1 (.ocons k2 v2 t2)) ++ rest =
              '"' :: (escapeChars k1.data ++ '"' :: ':' ::
                (charsV v1 ++ ',' :: charsO (.ocons k2 v2 t2)) ++ rest) := by
            simp [charsO]
          rw [show charsV (.jobj (.ocons k1 v1 (.ocons k2 v2 t2))) =
            lbrace :: charsO (.ocons k1 v1 (.ocons k2 v2 t2)) from by
            simp [charsV]]
          rw [show (lbrace :: charsO (.ocons k1 v1 (.ocons k2 v2 t2))) ++ rest =
            lbrace :: (charsO (.ocons k1 v1 (.ocons k2 v2 t2)) ++ rest) from rfl]
          have hO2 := hO
          rw [hsplit] at hO2
          simp only [List.append_assoc, List.cons_append, List.nil_append]
            at hO2
          rw [parseV.eq_def, hsplit]
          simp [hl1, hl2, hl3, hl4, hl5, hqne, hO2]
termination_by sizeOf v

theorem parseA_charsA (v : JVal) (t : JArr) (fuel : Nat)
    (h : needA (.acons v t) ≤ fuel) (rest : List Char) :
    parseA fuel (charsA (.acons v t) ++ rest) = some (.acons v t, rest) := by
  cases fuel with
  | zero => exact absurd h (by have := one_le_needA (.acons v t); omega)
  | succ f =>
    have hfv : needV v ≤ f := by
      have := one_le_needA t; simp only [needA] at h; omega
    cases t with
    | anil =>
      have hPV := parseV_charsV v f hfv (']' :: rest) rfl
      rw [parseA.eq_def]
      rw [show charsA (.acons v .anil) ++ rest = charsV v ++ (']' :: rest) from
        by simp [charsA]]
      simp [hPV]
    | acons v1 t1 =>
      have hPV := parseV_charsV v f hfv
        (',' :: (charsA (.acons v1 t1) ++ rest)) rfl
      have hft : needA (.acons v1 t1) ≤ f := by
        simp only [needA] at h ⊢
        have := one_le_needV v; omega
      have hA := parseA_charsA v1 t1 f hft rest
      rw [parseA.eq_def]
      rw [show charsA (.acons v (.acons v1 t1)) ++ rest =
        charsV v ++ (',' :: (charsA (.acons v1 t1) ++ rest)) from by
        simp [charsA]]
      simp [hPV, hA]
termination_by sizeOf (JArr.acons v t)

theorem parseO_charsO (k : String) (v : JVal) (t : JObj) (fuel : Nat)
    (h : needO (.ocons k v t) ≤ fuel) (rest : List Char) :
    parseO fuel (charsO (.ocons k v t) ++ rest) = some (.ocons k v t, rest) := by
  cases fuel with
  | zero => exact absurd h (by have := one_le_needO (.ocons k v t); omega)
  | succ f =>
    have hfv : needV v ≤ f := by
      have := one_le_needO t; simp only [needO] at h; omega
    cases t with
    | onil =>
      have hPV := parseV_charsV v f hfv (rbrace :: rest) rfl
      have hkey := parseStrChars_escape k.data
        (':' :: (charsV v ++ (rbrace :: rest)))
      rw [parseO.eq_def]
      rw [show charsO (.ocons k v .onil) ++ rest =
        '"' :: (escapeChars k.data ++
          ('"' :: ':' :: (charsV v ++ (rbrace :: rest)))) from by
        simp [charsO]]
      have hrc : rbrace ≠ ',' := by decide
      simp [hkey, hPV, hrc, mk_data]
    | ocons k1 v1 t1 =>
      have hPV := parseV_charsV v f hfv
        (',' :: (charsO (.ocons k1 v1 t1) ++ rest)) rfl
      have hft : needO (.ocons k1 v1 t1) ≤ f := by
        simp only [needO] at h ⊢
        have := one_le_needV v; omega
      have hO := parseO_charsO k1 v1 t1 f hft rest
      have hkey := parseStrChars_escape k.data
        (':' :: (charsV v ++ (',' :: (charsO (.ocons k1 v1 t1) ++ rest))))
      rw [parseO.eq_def]
      rw [show charsO (.ocons k v (.ocons k1 v1 t1)) ++ rest =
        '"' :: (escapeChars k.data ++
          ('"' :: ':' :: (charsV v ++
            (',' :: (charsO (.ocons k1 v1 t1) ++ rest))))) from by
        simp [charsO]]
      simp [hkey, hPV, hO, mk_data]
termination_by sizeOf (JObj.ocons k v t)

end

/-- Round trip of the query/body serialization: parsing a stringified
JSON value recovers it. -/
theorem parseJson_stringifyJson (v : JVal) :
    parseJson (stringifyJson v) = some v := by
  have hlen : (stringifyJson v).data = charsV v := rfl
  have hfuel : needV v ≤ 2 * (charsV v).length + 2 := by
    have := needV_le v; omega
  have := parseV_charsV v (2 * (charsV v).length + 2) hfuel [] (by decide)
  rw [List.append_nil] at this
  unfold parseJson
  rw [hlen, this]

/-! ## Lemmas: the polling loop -/

theorem pollSteps_succ (respAt : Nat → Envelope IngestionJob)
    (fuel k a t : Nat) :
    pollSteps respAt (fuel + 1) k a t = (t, respAt k) ::
      (if (respAt k).success = true then
        match (respAt k).data with
        | some job =>
          if terminalStatus job.status = true then []
          else if a < maxAttempts then
            pollSteps respAt fuel (k + 1) (a + 1) (t + pollInterval)
          else []
        | none => []
       else []) := rfl

theorem pollSteps_get? (respAt : Nat → Envelope IngestionJob) :
    ∀ fuel k a t i p, (pollSteps respAt fuel k a t).get? i = some p →
      p.1 = t + pollInterval * i := by
  intro fuel
  induction fuel with
  | zero => intro k a t i p hp; simp [pollSteps] at hp
  | succ fuel ih =>
    intro k a t i p hp
    rw [pollSteps_succ] at hp
    cases i with
    | zero =>
      simp only [List.get?] at hp
      cases hp
      simp
    | succ i =>
      simp only [List.get?] at hp
      by_cases hs : (respAt k).success
      · cases hd : (respAt k).data with
        | none => rw [hs, hd] at hp; simp at hp
        | some job =>
          rw [hs, hd] at hp
          by_cases hter : terminalStatus job.status
          · simp [hter] at hp
          · by_cases hatt : a < maxAttempts
            · simp only [hter, Bool.false_eq_true, if_false, if_true, hatt]
                at hp
              have := ih (k + 1) (a + 1) (t + pollInterval) i p hp
              rw [this]; ring
            · simp [hter, hatt] at hp
      · simp only [Bool.not_eq_true] at hs
        rw [hs] at hp
        simp at hp

theorem pollSteps_terminal_stop (respAt : Nat → Envelope IngestionJob) :
    ∀ fuel k a t i p, (pollSteps respAt fuel k a t).get? i = some p →
      observedTerminal p.2 = true →
      (pollSteps respAt fuel k a t).length = i + 1 := by
  intro fuel
  induction fuel with
  | zero => intro k a t i p hp; simp [pollSteps] at hp
  | succ fuel ih =>
    intro k a t i p hp hter
    rw [pollSteps_succ] at hp ⊢
    cases i with
    | zero =>
      simp only [List.get?] at hp
      cases hp
      simp only [observedTerminal, Bool.and_eq_true] at hter
      obtain ⟨hs, hdd⟩ := hter
      cases hd : (respAt k).data with
      | none => rw [hd] at hdd; simp at hdd
      | some job =>
        rw [hd] at hdd
        have hterm : terminalStatus job.status = true := by simpa using hdd
        rw [hs]
        simp [hterm]
    | succ i =>
      simp only [List.get?] at hp
      by_cases hs : (respAt k).success
      · cases hd : (respAt k).data with
        | none => rw [hs, hd] at hp; simp at hp
        | some job =>
          rw [hd] at hp
          rw [hs] at hp ⊢
          by_cases htj : terminalStatus job.status
          · simp [htj] at hp
          · by_cases hatt : a < maxAttempts
            · simp only [htj, Bool.false_eq_true, if_false, hatt, if_true]
                at hp ⊢
              have := ih (k + 1) (a + 1) (t + pollInterval) i p hp hter
              simp [this]
            · simp [htj, hatt] at hp
      · simp only [Bool.not_eq_true] at hs
        rw [hs] at hp
        simp at hp

theorem pollSteps_failure_stop (respAt : Nat → Envelope IngestionJob) :
    ∀ fuel k a t i p, (pollSteps respAt fuel k a t).get? i = some p →
      observedFailure p.2 = true →
      (pollSteps respAt fuel k a t).length = i + 1 := by
  intro fuel
  induction fuel with
  | zero => intro k a t i p hp; simp [pollSteps] at hp
  | succ fuel ih =>
    intro k a t i p hp hfail
    rw [pollSteps_succ] at hp ⊢
    cases i with
    | zero =>
      simp only [List.get?] at hp
      cases hp
      simp only [observedFailure, Bool.not_eq_true', Bool.and_eq_false_iff]
        at hfail
      cases hfail with
      | inl hs => rw [hs]; rfl
      | inr hdd =>
        cases hd : (respAt k).data with
        | none =>
          cases hs : (respAt k).success with
          | false => rfl
          | true => rfl
        | some job => rw [hd] at hdd; simp at hdd
    | succ i =>
      simp only [List.get?] at hp
      by_cases hs : (respAt k).success
      · cases hd : (respAt k).data with
        | none => rw [hs, hd] at hp; simp at hp
        | some job =>
          rw [hd] at hp
          rw [hs] at hp ⊢
          by_cases htj : terminalStatus job.status
          · simp [htj] at hp
          · by_cases hatt : a < maxAttempts
            · simp only [htj, Bool.false_eq_true, if_false, hatt, if_true]
                at hp ⊢
              have := ih (k + 1) (a + 1) (t + pollInterval) i p hp hfail
              simp [this]
            · simp [htj, hatt] at hp
      · simp only [Bool.not_eq_true] at hs
        rw [hs] at hp
        simp at hp

theorem pollSteps_length_le (respAt : Nat → Envelope IngestionJob) :
    ∀ fuel k a t, (pollSteps respAt fuel k a t).length ≤ fuel := by
  intro fuel
  induction fuel with
  | zero => intro k a t; simp [pollSteps]
  | succ fuel ih =>
    intro k a t
    rw [pollSteps_succ]
    simp only [List.length_cons]
    have hle : ∀ l : List (Nat × Envelope IngestionJob),
        l = [] ∨ l = pollSteps respAt fuel (k + 1) (a + 1) (t + pollInterval) →
        l.length ≤ fuel := by
      intro l hl
      cases hl with
      | inl h => simp [h]
      | inr h => rw [h]; exact ih (k + 1) (a + 1) (t + pollInterval)
    refine Nat.succ_le_succ (hle _ ?_)
    by_cases hs : (respAt k).success
    · rw [hs]
      cases (respAt k).data with
      | none => simp
      | some job =>
        by_cases htj : terminalStatus job.status
        · simp [htj]
        · by_cases hatt : a < maxAttempts
          · simp [htj, hatt]
          · simp [htj, hatt]
    · simp only [Bool.not_eq_true] at hs
      rw [hs]
      simp

/-! ## Lemmas: serialization filters and sequence cleaning -/

theorem serializeParams_filter_nil :
    ∀ (ps : List (String × Option SearchParamValue)) (k : String),
      k ∉ ps.map Prod.fst →
      (serializeParams ps).filter (fun p => p.1 == k) = [] := by
  intro ps
  induction ps with
  | nil => intro k _; rfl
  | cons hd tl ih =>
    intro k hk
    obtain ⟨k1, v1⟩ := hd
    simp only [List.map_cons, List.mem_cons, not_or] at hk
    cases v1 with
    | none =>
      simp only [serializeParams, List.filterMap_cons] at ih ⊢
      exact ih k hk.2
    | some v =>
      simp only [serializeParams, List.filterMap_cons] at ih ⊢
      rw [List.filter_cons]
      have hne : ((k1, paramToString v).1 == k) = false := by
        simp only [beq_eq_false_iff_ne, ne_eq]
        exact fun he => hk.1 he.symm
      simp only [hne, Bool.false_eq_true, if_false]
      exact ih k hk.2

theorem serializeParams_filter_single :
    ∀ (ps : List (String × Option SearchParamValue)) (k : String) (j : JVal),
      (ps.map Prod.fst).Nodup → (k, some (SearchParamValue.obj j)) ∈ ps →
      (serializeParams ps).filter (fun p => p.1 == k) =
        [(k, stringifyJson j)] := by
  intro ps
  induction ps with
  | nil => intro k j _ hmem; simp at hmem
  | cons hd tl ih =>
    intro k j hnd hmem
    obtain ⟨k1, v1⟩ := hd
    simp only [List.map_cons, List.nodup_cons] at hnd
    rcases List.mem_cons.mp hmem with heq | htl
    · cases heq
      simp only [serializeParams, List.filterMap_cons]
      rw [List.filter_cons]
      simp only [beq_self_eq_true, if_true]
      have hnil := serializeParams_filter_nil tl k hnd.1
      simp only [serializeParams] at hnil
      rw [hnil]
      rfl
    · have hkmem : k ∈ tl.map Prod.fst :=
        List.mem_map.mpr ⟨(k, some (SearchParamValue.obj j)), htl, rfl⟩
      have hne : k1 ≠ k := fun he => hnd.1 (he ▸ hkmem)
      cases v1 with
      | none =>
        simp only [serializeParams, List.filterMap_cons] at ih ⊢
        exact ih k j hnd.2 htl
      | some v =>
        simp only [serializeParams, List.filterMap_cons] at ih ⊢
        rw [List.filter_cons]
        have hfalse : ((k1, paramToString v).1 == k) = false := by
          simp only [beq_eq_false_iff_ne, ne_eq]
          exact hne
        simp only [hfalse, Bool.false_eq_true, if_false]
        exact ih k j hnd.2 htl

theorem jsTrim_empty_clean (s : String) (h : jsTrim s = "") :
    cleanSequence s = "" := by
  have hdata : ((s.data.dropWhile jsIsSpace).reverse.dropWhile jsIsSpace).reverse
      = [] := by
    have := congrArg String.data h
    simpa [jsTrim] using this
  have h2 : (s.data.dropWhile jsIsSpace).reverse.dropWhile jsIsSpace = [] := by
    have := congrArg List.reverse hdata
    simpa using this
  have hall2 := List.dropWhile_eq_nil_iff.mp h2
  have hall : ∀ x ∈ s.data, jsIsSpace x = true := by
    intro x hx
    rw [← List.takeWhile_append_dropWhile (p := jsIsSpace) (l := s.data)] at hx
    rcases List.mem_append.mp hx with h1 | h1
    · exact List.mem_takeWhile_imp h1
    · exact hall2 x (List.mem_reverse.mpr h1)
  have hfilter : s.data.filter (fun c => !jsIsSpace c) = [] := by
    rw [List.filter_eq_nil_iff]
    intro a ha
    simp [hall a ha]
  unfold cleanSequence
  rw [hfilter]
  rfl

/-! ## Claim C1 -/

/-- Claim C1 counterexample: at the transport outcome "fetch rejects
with an `Error` whose own message is empty", `request` returns the
uniform failure envelope whose `message` is the empty string, so the
claim's "message is non-empty" is false as stated. -/
theorem request_empty_message_cex :
    FetchOutcome.isFailure
      (FetchOutcome.reject (T := IngestionJob) (.errObj "")) = true ∧
    (request (FetchOutcome.reject (T := IngestionJob) (.errObj ""))).success
      = false ∧
    (request (FetchOutcome.reject (T := IngestionJob) (.errObj ""))).error =
      some { code := "API_ERROR", message := "" } :=
  ⟨rfl, rfl, rfl⟩

/-- Claim C1 as amended: for every transport failure (non-2xx status,
network rejection, or a body that fails JSON parsing) the wrapper —
which is a total function, so it never throws — returns `success =
false`, no data, and an error with code `API_ERROR`; the message is
non-empty except when the caught value is an `Error` object whose own
message is empty. -/
theorem request_failure_envelope (T : Type) (o : FetchOutcome T)
    (h : o.isFailure = true) :
    (request o).success = false ∧ (request o).data = none ∧
    ∃ msg, (request o).error = some { code := "API_ERROR", message := msg } ∧
      (o.blankMessage = false → msg ≠ "") := by
  cases o with
  | reject e =>
    cases e with
    | errObj m =>
      refine ⟨rfl, rfl, m, rfl, fun hb hm => ?_⟩
      subst hm
      simp [FetchOutcome.blankMessage] at hb
    | nonError =>
      exact ⟨rfl, rfl, "Unknown error", rfl, fun _ hm => by simp at hm⟩
  | resp status statusText body =>
    by_cases hok : respOk status
    · cases body with
      | error e =>
        cases e with
        | errObj m =>
          simp only [request, hok, if_true]
          refine ⟨rfl, rfl, m, rfl, fun hb hm => ?_⟩
          subst hm
          simp [FetchOutcome.blankMessage] at hb
        | nonError =>
          simp only [request, hok, if_true]
          exact ⟨rfl, rfl, "Unknown error", rfl, fun _ hm => by simp at hm⟩
      | ok env =>
        exfalso
        simp [FetchOutcome.isFailure, hok] at h
    · simp only [request, hok, if_false]
      refine ⟨rfl, rfl,
        "HTTP " ++ (⟨natChars status⟩ : String) ++ ": " ++ statusText, rfl,
        fun _ hm => ?_⟩
      have hlen := congrArg String.length hm
      simp only [String.length_append] at hlen
      have h5 : ("HTTP " : String).length = 5 := rfl
      have h2 : (": " : String).length = 2 := rfl
      have h0 : ("" : String).length = 0 := rfl
      omega

/-- Witness for the amended C1 at a concrete non-2xx response. -/
theorem request_failure_envelope_witness :
    (request (FetchOutcome.resp (T := IngestionJob) 404 "Not Found"
      (.ok processingEnv))).success = false ∧
    (request (FetchOutcome.resp (T := IngestionJob) 404 "Not Found"
      (.ok processingEnv))).data = none ∧
    ∃ msg, (request (FetchOutcome.resp (T := IngestionJob) 404 "Not Found"
        (.ok processingEnv))).error =
        some { code := "API_ERROR", message := msg } ∧
      (FetchOutcome.blankMessage (FetchOutcome.resp (T := IngestionJob) 404
          "Not Found" (.ok processingEnv)) = false → msg ≠ "") :=
  request_failure_envelope IngestionJob
    (FetchOutcome.resp 404 "Not Found" (.ok processingEnv)) (by decide)

/-! ## Claim C2 -/

/-- Claim C2 (confirmed): for a submission whose response carries status
`queued` or `processing` (and only those), `handleUpload` starts the
polling chain; the chain performs its first status check at the initial
delay of 5 time units and the `i`-th check at `5 + 10 * i`, and an
observed terminal status (`completed`/`failed`) makes that check the
last one — no further check is scheduled. -/
theorem pollTrace_schedule (respAt : Nat → Envelope IngestionJob) :
    pollTrace respAt ≠ [] ∧
    (∀ i p, (pollTrace respAt).get? i = some p →
      p.1 = initialDelay + pollInterval * i ∧
      (observedTerminal p.2 = true → (pollTrace respAt).length = i + 1)) ∧
    (∀ (st : IngestFormState) (mt : Option String)
        (resp : Envelope IngestionJob),
      st.selectedFile ≠ none → jsTrim st.source ≠ "" →
      jsTrim st.contributor ≠ "" → jsTrim st.fieldMapping = "" →
      (handleUpload st mt resp).pollStarted = startsPolling resp) := by
  refine ⟨?_, ?_, ?_⟩
  · rw [pollTrace, pollSteps_succ]
    exact List.cons_ne_nil _ _
  · intro i p hp
    rw [pollTrace] at hp
    refine ⟨pollSteps_get? respAt (maxAttempts + 1) 0 0 initialDelay i p hp,
      fun hter => ?_⟩
    rw [pollTrace]
    exact pollSteps_terminal_stop respAt (maxAttempts + 1) 0 0 initialDelay
      i p hp hter
  · intro st mt resp hfile hsrc hcontrib hmap
    unfold handleUpload
    rw [if_neg (by simp [Option.isNone_iff_eq_none, hfile]),
      if_neg hsrc, if_neg hcontrib]
    rw [if_pos hmap]
    cases hresp : resp.success with
    | false => simp [hresp, startsPolling]
    | true =>
      cases hdata : resp.data with
      | none => simp [hresp, hdata, startsPolling]
      | some job => simp [hresp, hdata, startsPolling]

/-- Witness for C2: a `processing` then `completed` environment checks
at times 5 and 15 and stops at the terminal check; the gating conjunct
instantiated at a guard-passing state. -/
theorem pollTrace_schedule_witness :
    ((15 : Nat), completedEnv).1 = initialDelay + pollInterval * 1 ∧
    (pollTrace respProcThenCompleted).length = 1 + 1 ∧
    (handleUpload stGood none processingEnv).pollStarted =
      startsPolling processingEnv := by
  refine ⟨?_, ?_, ?_⟩
  · exact ((pollTrace_schedule respProcThenCompleted).2.1 1 (15, completedEnv)
      (by decide)).1
  · exact ((pollTrace_schedule respProcThenCompleted).2.1 1 (15, completedEnv)
      (by decide)).2 (by decide)
  · exact (pollTrace_schedule respProcThenCompleted).2.2 stGood none
      processingEnv (by decide) (by decide) (by decide) (by decide)

/-! ## Claim C3 -/

/-- Claim C3 counterexample: with a first poll that fails and every
later poll a successful `processing`, the trace is the single failed
check — no subsequent poll is scheduled, refuting "a subsequent poll is
still scheduled, so the remaining attempt budget is not aborted". -/
theorem poll_failure_skip_cex :
    observedFailure failEnv = true ∧
    pollTrace respFailThenProcessing = [(initialDelay, failEnv)] :=
  ⟨by decide, by decide⟩

/-- Claim C3 as amended: a poll attempt that fails (`success` false or
missing data) is not counted toward the attempt budget, but it is the
last check of the run: the loop schedules no further poll after it (the
failure is only logged inside the request wrapper). -/
theorem pollTrace_failure_stops (respAt : Nat → Envelope IngestionJob)
    (i : Nat) (p : Nat × Envelope IngestionJob)
    (hp : (pollTrace respAt).get? i = some p)
    (hfail : observedFailure p.2 = true) :
    (pollTrace respAt).length = i + 1 := by
  rw [pollTrace] at hp ⊢
  exact pollSteps_failure_stop respAt (maxAttempts + 1) 0 0 initialDelay
    i p hp hfail

/-- Witness for the amended C3 at the fail-then-processing environment. -/
theorem pollTrace_failure_stops_witness :
    (pollTrace respFailThenProcessing).length = 0 + 1 :=
  pollTrace_failure_stops respFailThenProcessing 0 (initialDelay, failEnv)
    (by decide) (by decide)

/-! ## Claim C4 -/

/-- Claim C4 counterexample: with a never-terminal environment the loop
performs `maxAttempts + 1 = 31` status checks — the initial check plus
30 re-checks — exceeding the claimed bound of 30. -/
theorem pollTrace_attempt_count_cex :
    (pollTrace respAlwaysProcessing).length = maxAttempts + 1 ∧
    maxAttempts < (pollTrace respAlwaysProcessing).length :=
  ⟨by decide, by decide⟩

/-- Claim C4 as amended: polling always halts; even if the status never
reaches a terminal value only finitely many checks occur, bounded by
`maxAttempts + 1 = 31` (the initial check plus up to 30 re-checks). -/
theorem pollTrace_halts (respAt : Nat → Envelope IngestionJob) :
    (pollTrace respAt).length ≤ maxAttempts + 1 := by
  rw [pollTrace]
  exact pollSteps_length_le respAt (maxAttempts + 1) 0 0 initialDelay

/-! ## Claim C5 -/

/-- Claim C5 evaluated at a concrete ingestion request (code bug): the
multipart body is exactly file, format, JSON-encoded metadata and the
JSON-encoded validation options (mapping absent because not supplied) —
that half of the claim holds — but the effective headers of the request
still map `Content-Type` to `application/json`: spreading
`{...this.headers, ...{Accept}}` does not remove the default
`Content-Type`, although the source's own comment says it is removed so
the transport can set the multipart boundary. -/
theorem ingest_multipart_content_type :
    ingestFormData sampleIngestReq =
      [("file", FormValue.fileVal sampleFile),
       ("format", FormValue.strVal "csv"),
       ("metadata", FormValue.strVal
         "\x7b\"source\":\"OBIS\",\"contributor\":\"Lab\",\"license\":\"CC-BY\"\x7d"),
       ("validation", FormValue.strVal
         "\x7b\"strict\":true,\"skipErrors\":false\x7d")] ∧
    effectiveHeader ingestOptionHeaders "Content-Type"
      = some "application/json" ∧
    effectiveHeader ingestOptionHeaders "Accept" = some "application/json" :=
  ⟨by decide, by decide, by decide⟩

/-! ## Claim C6 -/

/-- Claim C6 (confirmed): in a read-request parameter object with
pairwise-distinct keys, every defined object-valued filter is serialized
as the single query entry holding its `JSON.stringify` under its own
key, and `JSON.parse` of that encoded value recovers the filter. -/
theorem query_object_param_roundtrip
    (ps : List (String × Option SearchParamValue)) (k : String) (j : JVal)
    (hnd : (ps.map Prod.fst).Nodup)
    (hmem : (k, some (SearchParamValue.obj j)) ∈ ps) :
    (serializeParams ps).filter (fun p => p.1 == k) =
      [(k, stringifyJson j)] ∧
    parseJson (stringifyJson j) = some j :=
  ⟨serializeParams_filter_single ps k j hnd hmem, parseJson_stringifyJson j⟩

/-- Witness for C6 at the spec's example filter
`\x7blat:1,lng:2,radius:5\x7d`. -/
theorem query_object_param_roundtrip_witness :
    (serializeParams sampleSearchParams).filter (fun p => p.1 == "location") =
      [("location", stringifyJson locFilter)] ∧
    parseJson (stringifyJson locFilter) = some locFilter :=
  query_object_param_roundtrip sampleSearchParams "location" locFilter
    (by decide) (by decide)

/-! ## Claim C7 -/

/-- Claim C7 (confirmed): the stream URL is the base URL with its first
`http` replaced by `ws` (so `https` becomes `wss`) plus `/ws`; a message
that parses as JSON invokes the callback exactly once with the parsed
value, and a malformed message invokes it zero times; neither case
closes the connection. -/
theorem ws_stream_contract :
    wsUrl "http://localhost:8000" = "ws://localhost:8000/ws" ∧
    wsUrl "https://api.example.org" = "wss://api.example.org/ws" ∧
    (∀ raw v, parseJson raw = some v →
      wsOnMessage raw = { callbackArgs := [v], closed := false }) ∧
    (∀ raw, parseJson raw = none →
      wsOnMessage raw = { callbackArgs := [], closed := false }) := by
  refine ⟨by decide, by decide, ?_, ?_⟩
  · intro raw v hv
    unfold wsOnMessage
    rw [hv]
  · intro raw hv
    unfold wsOnMessage
    rw [hv]

/-- Witness for C7: a well-formed and a malformed inbound message. -/
theorem ws_stream_contract_witness :
    wsOnMessage "7" = { callbackArgs := [JVal.jnum 7], closed := false } ∧
    wsOnMessage "x" = { callbackArgs := [], closed := false } :=
  ⟨ws_stream_contract.2.2.1 "7" (JVal.jnum 7) (by decide),
   ws_stream_contract.2.2.2 "x" (by decide)⟩

/-! ## Claim C8 -/

/-- Claim C8 (confirmed): in both analysis forms the coordinate object
is all-or-nothing — if either coordinate input is the empty string no
location object is built, and if both are non-empty the object carries
both parsed coordinates; `parseFloat` is abstracted as an arbitrary
function since only presence is at stake. -/
theorem coordinate_pair_all_or_nothing (α : Type) (pf : String → α)
    (lat lng : String) :
    ((lat = "" ∨ lng = "") →
      speciesLocation pf lat lng = none ∧
      ednaSampleLocation pf lat lng = none) ∧
    (lat ≠ "" → lng ≠ "" →
      speciesLocation pf lat lng = some (pf lat, pf lng) ∧
      ednaSampleLocation pf lat lng = some (pf lat, pf lng)) := by
  constructor
  · intro h
    unfold speciesLocation ednaSampleLocation
    rcases h with h | h <;> simp [h]
  · intro h1 h2
    unfold speciesLocation ednaSampleLocation
    simp [h1, h2]

/-- Witness for C8: one empty-coordinate state and one full pair. -/
theorem coordinate_pair_all_or_nothing_witness :
    (speciesLocation (fun s => s) "" "12.5" = none ∧
     ednaSampleLocation (fun s => s) "" "12.5" = none) ∧
    (speciesLocation (fun s => s) "13.06" "80.28" = some ("13.06", "80.28") ∧
     ednaSampleLocation (fun s => s) "13.06" "80.28"
       = some ("13.06", "80.28")) :=
  ⟨(coordinate_pair_all_or_nothing String (fun s => s) "" "12.5").1
     (Or.inl rfl),
   (coordinate_pair_all_or_nothing String (fun s => s) "13.06" "80.28").2
     (by decide) (by decide)⟩

/-! ## Claim C9 -/

/-- Claim C9 (confirmed): with no selected file, a whitespace-only
source, or a whitespace-only contributor, `handleUpload` sets the
corresponding descriptive message, does not call the ingestion API,
starts no polling, and leaves the previously held upload result
unchanged. -/
theorem handleUpload_guards (st : IngestFormState) (mt : Option String)
    (resp : Envelope IngestionJob) :
    (st.selectedFile = none →
      handleUpload st mt resp =
        { error := some "Please select a file to upload",
          uploadResult := st.uploadResult, apiCalled := false,
          pollStarted := false }) ∧
    (st.selectedFile ≠ none → jsTrim st.source = "" →
      handleUpload st mt resp =
        { error := some "Please specify the data source",
          uploadResult := st.uploadResult, apiCalled := false,
          pollStarted := false }) ∧
    (st.selectedFile ≠ none → jsTrim st.source ≠ "" →
      jsTrim st.contributor = "" →
      handleUpload st mt resp =
        { error := some "Please specify the contributor",
          uploadResult := st.uploadResult, apiCalled := false,
          pollStarted := false }) := by
  refine ⟨?_, ?_, ?_⟩
  · intro h
    unfold handleUpload
    rw [if_pos (by simp [Option.isNone_iff_eq_none, h])]
  · intro h1 h2
    unfold handleUpload
    rw [if_neg (by simp [Option.isNone_iff_eq_none, h1]), if_pos h2]
  · intro h1 h2 h3
    unfold handleUpload
    rw [if_neg (by simp [Option.isNone_iff_eq_none, h1]), if_neg h2,
      if_pos h3]

/-- Witness for C9 at the three concrete rejected form states. -/
theorem handleUpload_guards_witness :
    handleUpload stNoFile none processingEnv =
      { error := some "Please select a file to upload",
        uploadResult := stNoFile.uploadResult, apiCalled := false,
        pollStarted := false } ∧
    handleUpload stBlankSource none processingEnv =
      { error := some "Please specify the data source",
        uploadResult := stBlankSource.uploadResult, apiCalled := false,
        pollStarted := false } ∧
    handleUpload stBlankContributor none processingEnv =
      { error := some "Please specify the contributor",
        uploadResult := stBlankContributor.uploadResult, apiCalled := false,
        pollStarted := false } :=
  ⟨(handleUpload_guards stNoFile none processingEnv).1 (by decide),
   (handleUpload_guards stBlankSource none processingEnv).2.1 (by decide)
     (by decide),
   (handleUpload_guards stBlankContributor none processingEnv).2.2 (by decide)
     (by decide) (by decide)⟩

/-! ## Claim C10 -/

/-- Claim C10 (confirmed): the eDNA handler normalizes the input by
stripping all whitespace and uppercasing; if the normalized sequence has
a character outside `ATCGRYSWKMBDHVN` or is shorter than 50 characters
an error is set and no request is sent, and otherwise the request
carries exactly the normalized sequence. -/
theorem edna_sequence_validation (s : String) :
    ((cleanSequence s).data.all isIUPAC = true →
      50 ≤ (cleanSequence s).data.length →
      handleAnalyzeSequence s = .ok (cleanSequence s)) ∧
    ((cleanSequence s).data.all isIUPAC = false ∨
        (cleanSequence s).data.length < 50 →
      ∃ m, handleAnalyzeSequence s = Except.error m) := by
  constructor
  · intro hall hlen
    have htrim : jsTrim s ≠ "" := by
      intro he
      have hclean := jsTrim_empty_clean s he
      rw [hclean] at hlen
      simp at hlen
    have hne : (cleanSequence s).data.isEmpty = false := by
      cases hq : (cleanSequence s).data with
      | nil => rw [hq] at hlen; simp at hlen
      | cons c cs => simp
    unfold handleAnalyzeSequence
    rw [if_neg htrim]
    simp only [hne, hall, Bool.not_false, Bool.and_self, Bool.not_true,
      Bool.false_eq_true, if_false]
    rw [if_neg (by omega)]
  · intro hbad
    by_cases htrim : jsTrim s = ""
    · refine ⟨"Please enter a DNA sequence", ?_⟩
      unfold handleAnalyzeSequence
      rw [if_pos htrim]
    · unfold handleAnalyzeSequence
      rw [if_neg htrim]
      by_cases hcond :
          (!(!(cleanSequence s).data.isEmpty &&
            (cleanSequence s).data.all isIUPAC)) = true
      · exact ⟨_, by rw [if_pos hcond]⟩
      · have hlen : (cleanSequence s).data.length < 50 := by
          rcases hbad with hall | hlen
          · exfalso
            simp only [Bool.not_eq_true', Bool.not_eq_false,
              Bool.and_eq_true] at hcond
            rw [hcond.2] at hall
            simp at hall
          · exact hlen
        exact ⟨_, by rw [if_neg hcond, if_pos hlen]⟩

/-- Witness for C10: a lowercase, whitespace-ridden but valid 52-base
sequence is normalized and sent as normalized. -/
theorem edna_sequence_validation_witness :
    handleAnalyzeSequence
        "atcg atcg atcg atcg atcg atcg atcg atcg atcg atcg atcg atcg atcg" =
      .ok (cleanSequence
        "atcg atcg atcg atcg atcg atcg atcg atcg atcg atcg atcg atcg atcg") ∧
    cleanSequence
        "atcg atcg atcg atcg atcg atcg atcg atcg atcg atcg atcg atcg atcg" =
      "ATCGATCGATCGATCGATCGATCGATCGATCGATCGATCGATCGATCGATCG" :=
  ⟨(edna_sequence_validation _).1 (by decide) (by decide), by decide⟩

end Matsya
